import Mathlib

/-!
# A constant-product liquidity pool (`amm/pool.go`)

Shallow embedding of the `amm` package as it stands in the repository: the `Pool`
record, its queries (`Price`, `K`, `IsDepleted`) and its four state transitions
(`Deposit`, `Withdraw`, `XtoY`, `YtoX`).

* A `Pool` holds three `sdk.Int` values; they are embedded as `Int`.
* `sdk.Int` and `sdk.Dec` are declared in the cosmos-sdk library, outside the
  repository.  Their operations are embedded with the range checks of the
  library: an `sdk.Int` has at most 256 bits, an `sdk.Dec` at most 315 bits, and
  an operation whose result needs more panics with `Int overflow`.
* The zero value of the Go struct `sdk.Int` wraps a nil pointer.  A local
  variable of type `sdk.Int` is embedded as `Option Int`, with `none` for the
  zero value; an operation that reads a zero value panics with a nil pointer
  dereference.
* A Go panic is a value of `Failure`.  A query returns `Except Failure _`.  A
  mutating method of `*Pool` returns the outcome of the call together with the
  pool as the call leaves it, also when the call ends in a panic.

In `pool.go` each of the four transitions consists of a placeholder comment for
the calculating logic, followed by the update of the pool's fields from the named
results.  Nothing assigns the named results, so they keep their zero value when
the updates run.
-/

namespace Amm

/-! ## Data model -/

deriving instance DecidableEq for Except

/-- A Go panic, with its message. -/
inductive Failure where
  | panic (msg : String)
  deriving DecidableEq, Repr

/-- Pool is the basic pool type: `Rx` and `Ry` are the reserve balances of the
x and y coin, `Ps` is the pool coin supply. -/
structure Pool where
  Rx : Int
  Ry : Int
  Ps : Int
  deriving DecidableEq, Repr

/-- CreatePool returns a new Pool. -/
def CreatePool (rx ry ps : Int) : Pool :=
  { Rx := rx, Ry := ry, Ps := ps }

/-- The data-model invariant of the specification (section 3): reserves and
share supply are non-negative. -/
def Pool.WellFormed (pool : Pool) : Prop :=
  0 ≤ pool.Rx ∧ 0 ≤ pool.Ry ∧ 0 ≤ pool.Ps

instance (pool : Pool) : Decidable pool.WellFormed :=
  inferInstanceAs (Decidable (0 ≤ pool.Rx ∧ 0 ≤ pool.Ry ∧ 0 ≤ pool.Ps))

/-! ## Integers of the library (`sdk.Int`) -/

/-- The panic of the Go runtime when a nil pointer is read. -/
def nilPointerDereference : Failure :=
  .panic "runtime error: invalid memory address or nil pointer dereference"

/-- The panic of `sdk.Int` and `sdk.Dec` when a result is out of range. -/
def intOverflow : Failure := .panic "Int overflow"

/-- The bound of `sdk.Int`: 256 bits. -/
def maxBitLen : Nat := 256

/-- The bound of `sdk.Dec`: 315 bits. -/
def maxDecBitLen : Nat := 315

/-- Number of binary digits of a natural number, by halving at most `fuel`
times. -/
def bitLenAux : Nat → Nat → Nat
  | 0, _ => 0
  | fuel + 1, n => if n = 0 then 0 else bitLenAux fuel (n / 2) + 1

/-- Library function `big.Int.BitLen`: the length of the absolute value in bits;
the bit length of `0` is `0`. -/
def BitLen (n : Int) : Nat := bitLenAux n.natAbs n.natAbs

/-- Library function `sdk.Int.Add`: reading a zero-valued (nil) argument panics;
the sum panics when it needs more than 256 bits. -/
def sdkIntAdd (i : Int) (i2 : Option Int) : Except Failure Int :=
  match i2 with
  | none => .error nilPointerDereference
  | some v => if BitLen (i + v) > maxBitLen then .error intOverflow else .ok (i + v)

/-- Library function `sdk.Int.Sub`: reading a zero-valued (nil) argument panics;
the difference panics when it needs more than 256 bits. -/
def sdkIntSub (i : Int) (i2 : Option Int) : Except Failure Int :=
  match i2 with
  | none => .error nilPointerDereference
  | some v => if BitLen (i - v) > maxBitLen then .error intOverflow else .ok (i - v)

/-- Library function `sdk.Int.Mul`: it panics when the bit lengths of the
operands add up to more than 257, and when the product needs more than 256
bits. -/
def sdkIntMul (i i2 : Int) : Except Failure Int :=
  if (BitLen i : Int) + (BitLen i2 : Int) - 1 > (maxBitLen : Int) then .error intOverflow
  else if BitLen (i * i2) > maxBitLen then .error intOverflow
  else .ok (i * i2)

/-! ## Fixed-point decimals (`sdk.Dec`) -/

/-- The scaling factor of `sdk.Dec`: `10^18`. -/
def precisionReuse : Int := 1000000000000000000

/-- Half of the scaling factor: `5 * 10^17`. -/
def fivePrecision : Int := 500000000000000000

/-- A decimal of `sdk.Dec`: the value is `i / 10^18`. -/
structure Dec where
  i : Int
  deriving DecidableEq, Repr

/-- The rational number a decimal stands for. -/
def Dec.toRat (d : Dec) : ℚ := (d.i : ℚ) / (precisionReuse : ℚ)

/-- Conversion `Int.ToDec`: the integer `n` as the decimal `n * 10^18 / 10^18`. -/
def ToDec (n : Int) : Dec := { i := n * precisionReuse }

/-- Rounding step of `chopPrecisionAndRound` on a non-negative numerator: divide
by `10^18`, rounding half to even. -/
def chopNonneg (d : Int) : Int :=
  let quo := d.tdiv precisionReuse
  let rem := d.tmod precisionReuse
  if rem = 0 then quo
  else if rem < fivePrecision then quo
  else if fivePrecision < rem then quo + 1
  else if quo % 2 = 0 then quo
  else quo + 1

/-- Library function `chopPrecisionAndRound` of `sdk.Dec`: remove 18 digits of
precision with banker's rounding; a negative argument is negated, rounded, and
negated back. -/
def chopPrecisionAndRound (d : Int) : Int :=
  if d < 0 then -(chopNonneg (-d)) else chopNonneg d

/-- Library function `Dec.Quo`: the numerator is multiplied by the precision
twice, divided (truncating) by the divisor's numerator, then chopped and
rounded; the result panics when it needs more than 315 bits.  Dividing by the
decimal zero panics in the big-integer division. -/
def Dec.Quo (d d2 : Dec) : Except Failure Dec :=
  if d2.i = 0 then .error (.panic "division by zero")
  else
    let chopped := chopPrecisionAndRound ((d.i * precisionReuse * precisionReuse).tdiv d2.i)
    if BitLen chopped > maxDecBitLen then .error intOverflow
    else .ok { i := chopped }

/-! ## Queries of `pool.go` -/

/-- Balances returns the balances of the pool. -/
def Pool.Balances (pool : Pool) : Int × Int := (pool.Rx, pool.Ry)

/-- PoolCoinSupply returns the pool coin supply. -/
def Pool.PoolCoinSupply (pool : Pool) : Int := pool.Ps

/-- Price returns the pool price; it panics when a reserve is zero. -/
def Pool.Price (pool : Pool) : Except Failure Dec :=
  if pool.Rx = 0 ∨ pool.Ry = 0 then
    .error (.panic "pool price is not defined for a depleted pool")
  else
    (ToDec pool.Rx).Quo (ToDec pool.Ry)

/-- K returns the pool k. -/
def Pool.K (pool : Pool) : Except Failure Int := sdkIntMul pool.Rx pool.Ry

/-- IsDepleted returns whether the pool is depleted or not. -/
def Pool.IsDepleted (pool : Pool) : Bool :=
  pool.Ps == 0 || pool.Rx == 0 || pool.Ry == 0

/-! ## Transitions of `pool.go` -/

set_option linter.unusedVariables false in
/-- Deposit returns accepted x and y coin amount and minted pool coin amount
when someone deposits x and y coins.  The named results `ax`, `ay`, `pc` are
never assigned; the three updates `Rx = Rx.Add(ax)`, `Ry = Ry.Add(ay)`,
`Ps = Ps.Add(pc)` run in this order. -/
def Pool.Deposit (pool : Pool) (x y : Int) :
    Except Failure (Option Int × Option Int × Option Int) × Pool :=
  let ax : Option Int := none
  let ay : Option Int := none
  let pc : Option Int := none
  match sdkIntAdd pool.Rx ax with
  | .error e => (.error e, pool)
  | .ok rx =>
    match sdkIntAdd pool.Ry ay with
    | .error e => (.error e, { pool with Rx := rx })
    | .ok ry =>
      match sdkIntAdd pool.Ps pc with
      | .error e => (.error e, { pool with Rx := rx, Ry := ry })
      | .ok ps => (.ok (ax, ay, pc), { Rx := rx, Ry := ry, Ps := ps })

set_option linter.unusedVariables false in
/-- Withdraw returns withdrawn x and y coin amount when someone withdraws `pc`
pool coin.  The named results `x`, `y` are never assigned; the three updates
`Rx = Rx.Sub(x)`, `Ry = Ry.Sub(y)`, `Ps = Ps.Sub(pc)` run in this order. -/
def Pool.Withdraw (pool : Pool) (pc : Int) (feeRate : Dec) :
    Except Failure (Option Int × Option Int) × Pool :=
  let x : Option Int := none
  let y : Option Int := none
  match sdkIntSub pool.Rx x with
  | .error e => (.error e, pool)
  | .ok rx =>
    match sdkIntSub pool.Ry y with
    | .error e => (.error e, { pool with Rx := rx })
    | .ok ry =>
      match sdkIntSub pool.Ps (some pc) with
      | .error e => (.error e, { pool with Rx := rx, Ry := ry })
      | .ok ps => (.ok (x, y), { Rx := rx, Ry := ry, Ps := ps })

/-- XtoY swaps `xDelta` of the x coin for y coin.  The named result `yDelta` is
never assigned; the two updates `Rx = Rx.Add(xDelta)`, `Ry = Ry.Sub(yDelta)` run
in this order. -/
def Pool.XtoY (pool : Pool) (xDelta : Int) : Except Failure (Option Int) × Pool :=
  let yDelta : Option Int := none
  match sdkIntAdd pool.Rx (some xDelta) with
  | .error e => (.error e, pool)
  | .ok rx =>
    match sdkIntSub pool.Ry yDelta with
    | .error e => (.error e, { pool with Rx := rx })
    | .ok ry => (.ok yDelta, { pool with Rx := rx, Ry := ry })

/-- YtoX swaps `yDelta` of the y coin for x coin.  The named result `xDelta` is
never assigned; the two updates `Rx = Rx.Sub(xDelta)`, `Ry = Ry.Add(yDelta)` run
in this order. -/
def Pool.YtoX (pool : Pool) (yDelta : Int) : Except Failure (Option Int) × Pool :=
  let xDelta : Option Int := none
  match sdkIntSub pool.Rx xDelta with
  | .error e => (.error e, pool)
  | .ok rx =>
    match sdkIntAdd pool.Ry (some yDelta) with
    | .error e => (.error e, { pool with Rx := rx })
    | .ok ry => (.ok xDelta, { pool with Rx := rx, Ry := ry })

/-! ## Bit lengths -/

theorem bitLenAux_le (fuel : Nat) :
    ∀ n k : Nat, n < 2 ^ fuel → (bitLenAux fuel n ≤ k ↔ n < 2 ^ k) := by
  induction fuel with
  | zero =>
    intro n k h
    have hn : n = 0 := by simpa using h
    subst hn
    simp [bitLenAux]
  | succ f ih =>
    intro n k h
    unfold bitLenAux
    split_ifs with hz
    · subst hz
      simp
    · rcases k with _ | k
      · simp
        omega
      · have h2 : n / 2 < 2 ^ f := by
          rw [Nat.div_lt_iff_lt_mul (by norm_num)]
          rw [pow_succ] at h
          exact h
        rw [Nat.add_le_add_iff_right, ih (n / 2) k h2,
          Nat.div_lt_iff_lt_mul (by norm_num), pow_succ]

/-- A big integer has at most `k` bits exactly when its absolute value is below
`2^k`. -/
theorem BitLen_le (n : Int) (k : Nat) : BitLen n ≤ k ↔ |n| < 2 ^ k := by
  unfold BitLen
  rw [bitLenAux_le _ _ _ (Nat.lt_two_pow _), Int.abs_eq_natAbs]
  exact_mod_cast Iff.rfl

theorem BitLen_gt (n : Int) (k : Nat) : BitLen n > k ↔ 2 ^ k ≤ |n| := by
  rw [gt_iff_lt, ← not_le, BitLen_le, not_lt]

theorem BitLen_zero : BitLen 0 = 0 := rfl

theorem BitLen_pos (n : Int) (h : n ≠ 0) : 1 ≤ BitLen n := by
  by_contra hlt
  have h0 : BitLen n ≤ 0 := by omega
  rw [BitLen_le, pow_zero] at h0
  have : |n| = 0 := by
    have := abs_nonneg n
    omega
  exact h (abs_eq_zero.mp this)

/-- A big integer with `k + 1` bits is at least `2^k` in absolute value. -/
theorem two_pow_le_abs (n : Int) (k : Nat) (h : k + 1 ≤ BitLen n) : 2 ^ k ≤ |n| := by
  rw [← BitLen_gt]
  omega

theorem sdkIntAdd_some (i v : Int) (h : |i + v| < 2 ^ 256) :
    sdkIntAdd i (some v) = .ok (i + v) := by
  unfold sdkIntAdd
  simp only []
  rw [if_neg]
  rw [not_lt]
  exact (BitLen_le _ _).mpr h

theorem sdkIntAdd_some_overflow (i v : Int) (h : 2 ^ 256 ≤ |i + v|) :
    sdkIntAdd i (some v) = .error intOverflow := by
  unfold sdkIntAdd
  simp only []
  rw [if_pos]
  exact (BitLen_gt _ _).mpr h

/-- The product of two non-zero integers is returned when it has at most 256
bits: the check on the operands' bit lengths passes as well. -/
theorem sdkIntMul_ok (i i2 : Int) (hi : i ≠ 0) (hi2 : i2 ≠ 0) (h : |i * i2| < 2 ^ 256) :
    sdkIntMul i i2 = .ok (i * i2) := by
  have ha := BitLen_pos i hi
  have hb := BitLen_pos i2 hi2
  have hsum : BitLen i + BitLen i2 ≤ 257 := by
    by_contra hgt
    obtain ⟨a, ha'⟩ : ∃ a, BitLen i = a + 1 := ⟨BitLen i - 1, by omega⟩
    obtain ⟨b, hb'⟩ : ∃ b, BitLen i2 = b + 1 := ⟨BitLen i2 - 1, by omega⟩
    have h1 := two_pow_le_abs i a (by omega)
    have h2 := two_pow_le_abs i2 b (by omega)
    have h3 : (2 : Int) ^ (a + b) ≤ |i * i2| := by
      rw [abs_mul, pow_add]
      exact mul_le_mul h1 h2 (by positivity) (abs_nonneg i)
    have h4 : (2 : Int) ^ 256 ≤ 2 ^ (a + b) :=
      pow_le_pow_right₀ (by norm_num) (by omega)
    omega
  unfold sdkIntMul
  rw [if_neg, if_neg]
  · rw [not_lt]
    exact (BitLen_le _ _).mpr h
  · simp only [maxBitLen]
    omega

/-- A product with a zero factor is returned when the other factor is an
`sdk.Int` value (at most 256 bits). -/
theorem sdkIntMul_zero (i i2 : Int) (hz : i = 0 ∨ i2 = 0) (hi : |i| < 2 ^ 256)
    (hi2 : |i2| < 2 ^ 256) : sdkIntMul i i2 = .ok (i * i2) := by
  have ha : BitLen i ≤ 256 := (BitLen_le _ _).mpr hi
  have hb : BitLen i2 ≤ 256 := (BitLen_le _ _).mpr hi2
  have hsum : BitLen i + BitLen i2 ≤ 256 := by
    rcases hz with h | h
    · rw [h, BitLen_zero]
      omega
    · rw [h, BitLen_zero]
      omega
  have hprod : i * i2 = 0 := by
    rcases hz with h | h
    · rw [h, zero_mul]
    · rw [h, mul_zero]
  unfold sdkIntMul
  rw [if_neg, if_neg]
  · rw [hprod, BitLen_zero]
    simp [maxBitLen]
  · simp only [maxBitLen]
    omega

/-- A product that needs more than 256 bits makes `Mul` panic, in one of its two
checks. -/
theorem sdkIntMul_overflow (i i2 : Int) (h : 2 ^ 256 ≤ |i * i2|) :
    sdkIntMul i i2 = .error intOverflow := by
  unfold sdkIntMul
  split_ifs with h1 h2
  · rfl
  · rfl
  · exact absurd ((BitLen_gt _ _).mpr h) h2

/-! ## The transitions as they stand -/

/-- Every call of `Deposit` panics at the first update, `pool.Rx.Add(ax)`, where
`ax` is the zero value; the pool is still as it was. -/
theorem Deposit_eq (pool : Pool) (x y : Int) :
    pool.Deposit x y = (.error nilPointerDereference, pool) := rfl

/-- Every call of `Withdraw` panics at the first update, `pool.Rx.Sub(x)`, where
`x` is the zero value; the pool is still as it was. -/
theorem Withdraw_eq (pool : Pool) (pc : Int) (feeRate : Dec) :
    pool.Withdraw pc feeRate = (.error nilPointerDereference, pool) := rfl

/-- Every call of `YtoX` panics at the first update, `pool.Rx.Sub(xDelta)`, where
`xDelta` is the zero value; the pool is still as it was. -/
theorem YtoX_eq (pool : Pool) (yDelta : Int) :
    pool.YtoX yDelta = (.error nilPointerDereference, pool) := rfl

/-- A call of `XtoY` whose first update stays in range adds `xDelta` to `Rx` and
then panics at the second update, `pool.Ry.Sub(yDelta)`, where `yDelta` is the
zero value. -/
theorem XtoY_eq (pool : Pool) (xDelta : Int) (h : |pool.Rx + xDelta| < 2 ^ 256) :
    pool.XtoY xDelta =
      (.error nilPointerDereference, { pool with Rx := pool.Rx + xDelta }) := by
  unfold Pool.XtoY
  simp only []
  rw [sdkIntAdd_some _ _ h]
  rfl

/-- A call of `XtoY` whose first update is out of range panics there, with the
pool still as it was. -/
theorem XtoY_eq_overflow (pool : Pool) (xDelta : Int) (h : 2 ^ 256 ≤ |pool.Rx + xDelta|) :
    pool.XtoY xDelta = (.error intOverflow, pool) := by
  unfold Pool.XtoY
  simp only []
  rw [sdkIntAdd_some_overflow _ _ h]

/-- On a non-negative numerator the rounding step returns the quotient by `10^18`
or its successor, and the successor only when the remainder is positive. -/
theorem chopNonneg_cases (t : Int) (ht : 0 ≤ t) :
    chopNonneg t = t / precisionReuse ∨
      (chopNonneg t = t / precisionReuse + 1 ∧ 0 < t % precisionReuse) := by
  have hP : (0 : Int) < precisionReuse := by decide
  unfold chopNonneg
  rw [Int.tdiv_eq_ediv ht hP.le, Int.tmod_eq_emod ht hP.le]
  have hr := Int.emod_nonneg t hP.ne'
  simp only []
  split_ifs with h1 h2 h3 h4
  · exact Or.inl rfl
  · exact Or.inl rfl
  · exact Or.inr ⟨rfl, by omega⟩
  · exact Or.inl rfl
  · exact Or.inr ⟨rfl, by omega⟩

/-- The numerator `p` returned by `Price` is within one unit of `Rx * 10^18 / Ry`:
`|p * Ry - Rx * 10^18| < Ry`. -/
theorem price_numerator_bounds (rx ry : Int) (hrx : 0 < rx) (hry : 0 < ry) :
    chopNonneg (rx * precisionReuse * precisionReuse / ry) * ry - rx * precisionReuse < ry ∧
    rx * precisionReuse - chopNonneg (rx * precisionReuse * precisionReuse / ry) * ry < ry := by
  have hP : (0 : Int) < precisionReuse := by decide
  have h1 := Int.ediv_mul_le (rx * precisionReuse * precisionReuse) hry.ne'
  have h2 := Int.lt_ediv_add_one_mul_self (rx * precisionReuse * precisionReuse) hry
  have ht : 0 ≤ rx * precisionReuse * precisionReuse / ry :=
    Int.ediv_nonneg (mul_nonneg (mul_nonneg hrx.le hP.le) hP.le) hry.le
  have hcases := chopNonneg_cases _ ht
  generalize rx * precisionReuse * precisionReuse / ry = t at h1 h2 ht hcases
  have h3 := Int.ediv_mul_le t hP.ne'
  have h4 := Int.lt_ediv_add_one_mul_self t hP
  have h5 := Int.ediv_add_emod t precisionReuse
  generalize t / precisionReuse = n at h3 h4 h5 hcases
  generalize t % precisionReuse = r at h5 hcases
  generalize chopNonneg t = p at hcases
  generalize precisionReuse = P at hP h1 h2 h3 h4 h5 hcases
  have e1 : n * P * ry ≤ t * ry := mul_le_mul_of_nonneg_right h3 hry.le
  have e2 : (t + 1) * ry ≤ (n + 1) * P * ry :=
    mul_le_mul_of_nonneg_right (by omega) hry.le
  have hA : n * ry ≤ rx * P := by
    have : n * ry * P ≤ rx * P * P := by linarith
    exact le_of_mul_le_mul_right this hP
  have hB : rx * P < (n + 1) * ry := by
    have : rx * P * P < (n + 1) * ry * P := by linarith
    exact lt_of_mul_lt_mul_right this hP.le
  rcases hcases with hp | ⟨hp, hr⟩
  · subst hp
    constructor <;> linarith
  · subst hp
    have e3 : (n * P + 1) * ry ≤ t * ry :=
      mul_le_mul_of_nonneg_right (by linarith) hry.le
    have hC : n * ry < rx * P := by
      have : n * ry * P < rx * P * P := by linarith
      exact lt_of_mul_lt_mul_right this hP.le
    constructor <;> linarith

/-- The numerator returned by `Price` is exact precisely when `Ry` divides
`Rx * 10^18`. -/
theorem price_numerator_exact_iff (rx ry : Int) (hrx : 0 < rx) (hry : 0 < ry) :
    chopNonneg (rx * precisionReuse * precisionReuse / ry) * ry = rx * precisionReuse ↔
      ry ∣ rx * precisionReuse := by
  have hP : (0 : Int) < precisionReuse := by decide
  constructor
  · intro h
    exact Dvd.intro_left _ h
  · rintro ⟨k, hk⟩
    have hk0 : 0 ≤ k := by
      by_contra hneg
      have : ry * k < 0 := mul_neg_of_pos_of_neg hry (by omega)
      have : 0 ≤ rx * precisionReuse := mul_nonneg hrx.le hP.le
      omega
    have ht : rx * precisionReuse * precisionReuse / ry = k * precisionReuse := by
      rw [hk, mul_assoc ry k precisionReuse, Int.mul_ediv_cancel_left _ hry.ne']
    rw [ht]
    rcases chopNonneg_cases (k * precisionReuse) (mul_nonneg hk0 hP.le) with h | ⟨_, hr⟩
    · rw [h, Int.mul_ediv_cancel _ hP.ne', hk, mul_comm]
    · rw [Int.mul_emod_left] at hr
      exact absurd hr (lt_irrefl 0)

/-- On a non-negative numerator the rounding step returns the quotient by `10^18`
when the remainder is at most half, or its successor when the remainder is at
least half. -/
theorem chopNonneg_round (t : Int) (ht : 0 ≤ t) :
    (chopNonneg t = t / precisionReuse ∧ t % precisionReuse ≤ fivePrecision) ∨
      (chopNonneg t = t / precisionReuse + 1 ∧ fivePrecision ≤ t % precisionReuse) := by
  have hP : (0 : Int) < precisionReuse := by decide
  have h5 : (0 : Int) < fivePrecision := by decide
  unfold chopNonneg
  rw [Int.tdiv_eq_ediv ht hP.le, Int.tmod_eq_emod ht hP.le]
  simp only []
  split_ifs with h1 h2 h3 h4
  · exact Or.inl ⟨rfl, by omega⟩
  · exact Or.inl ⟨rfl, by omega⟩
  · exact Or.inr ⟨rfl, by omega⟩
  · exact Or.inl ⟨rfl, by omega⟩
  · exact Or.inr ⟨rfl, by omega⟩

/-- The numerator `p` returned by `Price` against `Rx * 10^18 / Ry`, in integers:
`2 * |p * Ry - Rx * 10^18| * 10^18 < (10^18 + 2) * Ry`, and
`2 * |p * Ry - Rx * 10^18| ≤ Ry` when `2 * Ry ≤ 10^18`. -/
theorem price_numerator_nearest (rx ry : Int) (hrx : 0 < rx) (hry : 0 < ry) :
    2 * |chopNonneg (rx * precisionReuse * precisionReuse / ry) * ry - rx * precisionReuse|
        * precisionReuse < (precisionReuse + 2) * ry ∧
    (2 * ry ≤ precisionReuse →
      2 * |chopNonneg (rx * precisionReuse * precisionReuse / ry) * ry - rx * precisionReuse|
        ≤ ry) := by
  have hP : (0 : Int) < precisionReuse := by decide
  have h5 : 2 * fivePrecision = precisionReuse := by decide
  have h1 := Int.ediv_mul_le (rx * precisionReuse * precisionReuse) hry.ne'
  have h2 := Int.lt_ediv_add_one_mul_self (rx * precisionReuse * precisionReuse) hry
  have ht : 0 ≤ rx * precisionReuse * precisionReuse / ry :=
    Int.ediv_nonneg (mul_nonneg (mul_nonneg hrx.le hP.le) hP.le) hry.le
  have hcases := chopNonneg_round _ ht
  generalize rx * precisionReuse * precisionReuse / ry = t at h1 h2 ht hcases
  have h3 := Int.emod_nonneg t hP.ne'
  have h4 := Int.emod_lt_of_pos t hP
  have h6 := Int.ediv_add_emod t precisionReuse
  generalize t / precisionReuse = n at h6 hcases
  generalize t % precisionReuse = r at h3 h4 h6 hcases
  generalize chopNonneg t = p at hcases
  generalize fivePrecision = F at h5 hcases
  generalize precisionReuse = P at hP h1 h2 h3 h4 h5 h6 hcases
  subst h6
  rcases hcases with ⟨hp, hr⟩ | ⟨hp, hr⟩
  · rw [hp]
    have e1 : n * ry * P ≤ rx * P * P := by
      have : P * n * ry ≤ (P * n + r) * ry :=
        mul_le_mul_of_nonneg_right (by omega) hry.le
      linarith
    have hA : n * ry ≤ rx * P := le_of_mul_le_mul_right e1 hP
    have e2 : (P * n + r + 1) * ry ≤ (P * n + F + 1) * ry :=
      mul_le_mul_of_nonneg_right (by omega) hry.le
    have hD : |n * ry - rx * P| = rx * P - n * ry := by
      rw [abs_of_nonpos (by linarith)]
      ring
    rw [hD]
    have hmain : 2 * (rx * P - n * ry) * P < (P + 2) * ry := by nlinarith
    refine ⟨hmain, fun hsmall => ?_⟩
    have : 2 * (rx * P - n * ry) * P < (ry + 1) * P := by nlinarith
    have := lt_of_mul_lt_mul_right this hP.le
    omega
  · rw [hp]
    have e1 : (P * n + r + 1) * ry ≤ (n + 1) * P * ry :=
      mul_le_mul_of_nonneg_right (by nlinarith) hry.le
    have hB : rx * P < (n + 1) * ry := by
      have : rx * P * P < (n + 1) * ry * P := by linarith
      exact lt_of_mul_lt_mul_right this hP.le
    have e2 : (P * n + F) * ry ≤ (P * n + r) * ry :=
      mul_le_mul_of_nonneg_right (by omega) hry.le
    have hD : |(n + 1) * ry - rx * P| = (n + 1) * ry - rx * P :=
      abs_of_nonneg (by linarith)
    rw [hD]
    have hle : 2 * ((n + 1) * ry - rx * P) * P ≤ ry * P := by nlinarith
    have hle' : 2 * ((n + 1) * ry - rx * P) ≤ ry := le_of_mul_le_mul_right hle hP
    exact ⟨by nlinarith, fun _ => hle'⟩

theorem chopNonneg_nonneg (t : Int) (ht : 0 ≤ t) : 0 ≤ chopNonneg t := by
  have hP : (0 : Int) < precisionReuse := by decide
  have h := Int.ediv_nonneg ht hP.le
  rcases chopNonneg_cases t ht with h1 | ⟨h1, _⟩
  · rw [h1]
    exact h
  · rw [h1]
    omega

theorem abs_chopPrecisionAndRound (t : Int) : |chopPrecisionAndRound t| = chopNonneg |t| := by
  unfold chopPrecisionAndRound
  split_ifs with h
  · rw [abs_neg, abs_of_neg h, abs_of_nonneg (chopNonneg_nonneg _ (by omega))]
  · rw [abs_of_nonneg (not_lt.mp h), abs_of_nonneg (chopNonneg_nonneg _ (not_lt.mp h))]

theorem abs_tdiv (a b : Int) : |a.tdiv b| = |a| / |b| := by
  rw [Int.abs_eq_natAbs, Int.abs_eq_natAbs, Int.abs_eq_natAbs, Int.natAbs_tdiv]
  exact Int.ofNat_ediv _ _

/-- The absolute value of the numerator that `Price` computes from non-zero
reserves: the rounding step applied to `floor(|Rx| * 10^36 / |Ry|)`. -/
theorem abs_price_numerator (rx ry : Int) :
    |chopPrecisionAndRound
        ((rx * precisionReuse * precisionReuse * precisionReuse).tdiv (ry * precisionReuse))| =
      chopNonneg (|rx| * precisionReuse * precisionReuse / |ry|) := by
  have hP : (0 : Int) < precisionReuse := by decide
  rw [abs_chopPrecisionAndRound, abs_tdiv, abs_mul, abs_mul, abs_mul, abs_mul,
    abs_of_pos hP, Int.mul_ediv_mul_of_pos_left _ _ hP]

/-- The numerator stays below `2^315` when `Rx * 10^18` does. -/
theorem price_numerator_lt (rx ry : Int) (hrx : 0 < rx) (hry : 0 < ry)
    (h : rx * 10 ^ 18 < 2 ^ 315) :
    |chopNonneg (rx * precisionReuse * precisionReuse / ry)| < 2 ^ 315 := by
  have hP : (0 : Int) < precisionReuse := by decide
  have hPv : precisionReuse = 10 ^ 18 := by decide
  have h0 : 0 ≤ chopNonneg (rx * precisionReuse * precisionReuse / ry) :=
    chopNonneg_nonneg _ (Int.ediv_nonneg (mul_nonneg (mul_nonneg hrx.le hP.le) hP.le) hry.le)
  obtain ⟨hb, _⟩ := price_numerator_bounds rx ry hrx hry
  rw [abs_of_nonneg h0]
  generalize chopNonneg (rx * precisionReuse * precisionReuse / ry) = p at h0 hb
  rw [hPv] at hb
  by_contra hge
  rw [not_lt] at hge
  have h1 : (2 : Int) ^ 315 * ry ≤ p * ry := mul_le_mul_of_nonneg_right hge hry.le
  have h2 : (0 : Int) ≤ ((2 : Int) ^ 315 - 1) * (ry - 1) :=
    mul_nonneg (by norm_num) (by omega)
  linarith

/-- The value of `Price` on non-zero reserves: the chopped and rounded
quotient, or the panic `Int overflow` when it needs more than 315 bits. -/
theorem Price_of_ne_zero (pool : Pool) (hrx : pool.Rx ≠ 0) (hry : pool.Ry ≠ 0) :
    pool.Price =
      if BitLen (chopPrecisionAndRound
          ((pool.Rx * precisionReuse * precisionReuse * precisionReuse).tdiv
            (pool.Ry * precisionReuse))) > maxDecBitLen
      then .error intOverflow
      else .ok (Dec.mk (chopPrecisionAndRound
          ((pool.Rx * precisionReuse * precisionReuse * precisionReuse).tdiv
            (pool.Ry * precisionReuse)))) := by
  have hP : (0 : Int) < precisionReuse := by decide
  unfold Pool.Price
  rw [if_neg (by tauto)]
  unfold Dec.Quo ToDec
  simp only []
  rw [if_neg (mul_ne_zero hry hP.ne')]

/-- On positive reserves the numerator is the rounding step applied to
`floor(Rx * 10^36 / Ry)`. -/
theorem price_numerator_pos (rx ry : Int) (hrx : 0 < rx) (hry : 0 < ry) :
    chopPrecisionAndRound
        ((rx * precisionReuse * precisionReuse * precisionReuse).tdiv (ry * precisionReuse)) =
      chopNonneg (rx * precisionReuse * precisionReuse / ry) := by
  have hP : (0 : Int) < precisionReuse := by decide
  have hn : 0 ≤ rx * precisionReuse * precisionReuse :=
    mul_nonneg (mul_nonneg hrx.le hP.le) hP.le
  unfold chopPrecisionAndRound
  rw [Int.tdiv_eq_ediv (mul_nonneg hn hP.le) (mul_nonneg hry.le hP.le),
    Int.mul_ediv_mul_of_pos_left _ _ hP, if_neg (not_lt.mpr (Int.ediv_nonneg hn hry.le))]

/-- With positive reserves and `Rx * 10^18` below `2^315`, `Price` returns the
decimal whose numerator is the rounding step applied to
`floor(Rx * 10^36 / Ry)`. -/
theorem Price_pos (pool : Pool) (hrx : 0 < pool.Rx) (hry : 0 < pool.Ry)
    (hrange : pool.Rx * 10 ^ 18 < 2 ^ 315) :
    pool.Price =
      .ok { i := chopNonneg (pool.Rx * precisionReuse * precisionReuse / pool.Ry) } := by
  rw [Price_of_ne_zero pool hrx.ne' hry.ne', price_numerator_pos _ _ hrx hry, if_neg]
  rw [not_lt]
  exact (BitLen_le _ _).mpr (price_numerator_lt _ _ hrx hry hrange)

/-- With non-zero reserves and `|Rx| * 10^18` below `2^315`, `Price` returns a
decimal. -/
theorem Price_returns (pool : Pool) (hrx : pool.Rx ≠ 0) (hry : pool.Ry ≠ 0)
    (hrange : |pool.Rx| * 10 ^ 18 < 2 ^ 315) : ∃ d, pool.Price = .ok d := by
  rw [Price_of_ne_zero pool hrx hry, if_neg]
  · exact ⟨_, rfl⟩
  · rw [not_lt]
    refine (BitLen_le _ _).mpr ?_
    rw [abs_price_numerator]
    have h := price_numerator_lt |pool.Rx| |pool.Ry| (abs_pos.mpr hrx) (abs_pos.mpr hry) hrange
    rwa [abs_of_nonneg (chopNonneg_nonneg _ (Int.ediv_nonneg
      (mul_nonneg (mul_nonneg (abs_nonneg _) (by decide)) (by decide)) (abs_nonneg _)))] at h

set_option maxRecDepth 100000 in
/-- The pool `(2^256 - 1, 1, 1)`: the quotient `(2^256 - 1) * 10^18` needs 316
bits, and `Price` panics with `Int overflow`. -/
theorem Price_overflow_example :
    Pool.Price (CreatePool (2 ^ 256 - 1) 1 1) = .error intOverflow := by
  rw [Price_of_ne_zero _ (by decide) (by decide), if_pos]
  rw [BitLen_gt]
  decide

/-! ## The claims -/

/-! ### The queries `IsDepleted`, `Price` and `K` -/

/-- C9. `IsDepleted` is true exactly when the supply or a reserve is zero; the
pools `(100, 0, 0)`, `(0, 10000, 10000)` and `(100, 100, 0)` are depleted and
`(10000, 10000, 10000)` is not. -/
theorem isDepleted_iff :
    (∀ pool : Pool, pool.IsDepleted = true ↔ pool.Ps = 0 ∨ pool.Rx = 0 ∨ pool.Ry = 0) ∧
    Pool.IsDepleted (CreatePool 100 0 0) = true ∧
    Pool.IsDepleted (CreatePool 0 10000 10000) = true ∧
    Pool.IsDepleted (CreatePool 100 100 0) = true ∧
    Pool.IsDepleted (CreatePool 10000 10000 10000) = false := by
  refine ⟨fun pool => ?_, by decide, by decide, by decide, by decide⟩
  simp only [Pool.IsDepleted, Bool.or_eq_true, beq_iff_eq, or_assoc]

/-- C10 (amended). For every pool with positive reserves (in particular every
non-depleted pool) in which `Rx * 10^18` is below `2^315`, `Price()` returns a
decimal `p / 10^18` with integer `p` that differs from the rational number
`Rx / Ry` by less than `10^-18`, and that equals `Rx / Ry` exactly if and only
if `Ry` divides `Rx * 10^18`. -/
theorem price_rounded (pool : Pool) (hrx : 0 < pool.Rx) (hry : 0 < pool.Ry)
    (hrange : pool.Rx * 10 ^ 18 < 2 ^ 315) :
    ∃ p : Int, pool.Price = .ok { i := p } ∧
      Dec.toRat { i := p } = (p : ℚ) / 10 ^ 18 ∧
      |(p : ℚ) / 10 ^ 18 - (pool.Rx : ℚ) / (pool.Ry : ℚ)| < 1 / 10 ^ 18 ∧
      ((p : ℚ) / 10 ^ 18 = (pool.Rx : ℚ) / (pool.Ry : ℚ) ↔ pool.Ry ∣ pool.Rx * 10 ^ 18) := by
  have hPv : precisionReuse = 10 ^ 18 := by decide
  obtain ⟨hb1, hb2⟩ := price_numerator_bounds pool.Rx pool.Ry hrx hry
  have hex := price_numerator_exact_iff pool.Rx pool.Ry hrx hry
  refine ⟨_, Price_pos pool hrx hry hrange, ?_, ?_, ?_⟩
  · unfold Dec.toRat
    rw [hPv]
    norm_num
  · generalize chopNonneg (pool.Rx * precisionReuse * precisionReuse / pool.Ry) = p
      at hb1 hb2
    rw [hPv] at hb1 hb2
    have hryq : (0 : ℚ) < (pool.Ry : ℚ) := by exact_mod_cast hry
    have hq1 : (p : ℚ) * pool.Ry - pool.Rx * 10 ^ 18 < pool.Ry := by exact_mod_cast hb1
    have hq2 : (pool.Rx : ℚ) * 10 ^ 18 - p * pool.Ry < pool.Ry := by exact_mod_cast hb2
    have hkey : (p : ℚ) / 10 ^ 18 - (pool.Rx : ℚ) / (pool.Ry : ℚ) =
        ((p : ℚ) * pool.Ry - pool.Rx * 10 ^ 18) / (10 ^ 18 * pool.Ry) := by
      field_simp
      ring
    have habs : |(p : ℚ) * (pool.Ry : ℚ) - (pool.Rx : ℚ) * 10 ^ 18| < (pool.Ry : ℚ) :=
      abs_lt.mpr ⟨by linarith, by linarith⟩
    rw [hkey, abs_div, abs_of_pos (mul_pos (by positivity) hryq),
      div_lt_div_iff₀ (mul_pos (by positivity) hryq) (by positivity)]
    linarith
  · generalize chopNonneg (pool.Rx * precisionReuse * precisionReuse / pool.Ry) = p
      at hex
    rw [hPv] at hex
    have hryq : (pool.Ry : ℚ) ≠ 0 := by exact_mod_cast hry.ne'
    rw [← hex, div_eq_div_iff (by positivity) hryq]
    constructor
    · intro h
      have : ((p * pool.Ry : Int) : ℚ) = ((pool.Rx * 10 ^ 18 : Int) : ℚ) := by
        push_cast; linarith
      exact_mod_cast this
    · intro h
      have : ((p * pool.Ry : Int) : ℚ) = ((pool.Rx * 10 ^ 18 : Int) : ℚ) := by rw [h]
      push_cast at this
      linarith

/-- The witness of C10: the pool `(20000, 100, 10000)` of the test table, whose
price is exactly `200`. -/
theorem price_rounded_witness :
    ((0 : Int) < 20000 ∧ (0 : Int) < 100 ∧ (20000 : Int) * 10 ^ 18 < 2 ^ 315) ∧
    (∃ p : Int, Pool.Price ⟨20000, 100, 10000⟩ = .ok { i := p } ∧
      Dec.toRat { i := p } = (p : ℚ) / 10 ^ 18 ∧
      |(p : ℚ) / 10 ^ 18 - ((20000 : Int) : ℚ) / ((100 : Int) : ℚ)| < 1 / 10 ^ 18 ∧
      ((p : ℚ) / 10 ^ 18 = ((20000 : Int) : ℚ) / ((100 : Int) : ℚ) ↔
        (100 : Int) ∣ 20000 * 10 ^ 18)) ∧
    Pool.Price ⟨20000, 100, 10000⟩ = .ok { i := 200000000000000000000 } :=
  ⟨⟨by decide, by decide, by norm_num⟩, price_rounded ⟨20000, 100, 10000⟩ (by decide) (by decide) (by norm_num),
   by decide⟩

/-- C10, the claim as stated fails: the non-depleted pool `(200, 300, 10000)` has
price `0.666666666666666667` (the row `decimal rounding` of the test table),
which is not the rational number `2/3`. -/
theorem price_exact_counterexample :
    Pool.WellFormed ⟨200, 300, 10000⟩ ∧ Pool.IsDepleted ⟨200, 300, 10000⟩ = false ∧
    Pool.Price ⟨200, 300, 10000⟩ = .ok { i := 666666666666666667 } ∧
    Dec.toRat { i := 666666666666666667 } ≠ (200 : ℚ) / 300 ∧
    Dec.toRat { i := 666666666666666667 } ≠ 2 / 3 := by
  refine ⟨by decide, by decide, by decide, ?_, ?_⟩ <;>
    norm_num [Dec.toRat, precisionReuse]

/-- C11. For every pool with `Rx = 0` or `Ry = 0`, whatever `Ps` is, `Price()`
fails with the panic of `pool.go` instead of returning a value; `Price` only
reads the pool, so the pool is unchanged.  The pools `(0, 1000, 1000)` and
`(1000, 0, 1000)` of the test table are instances. -/
theorem price_fails_on_zero_reserve (pool : Pool) (h : pool.Rx = 0 ∨ pool.Ry = 0) :
    pool.Price = .error (.panic "pool price is not defined for a depleted pool") ∧
    ∀ d : Dec, pool.Price ≠ .ok d := by
  have hp : pool.Price = .error (.panic "pool price is not defined for a depleted pool") := by
    unfold Pool.Price
    rw [if_pos h]
  refine ⟨hp, fun d hd => ?_⟩
  rw [hp] at hd
  exact Except.noConfusion hd

/-- The witness of C11: the two panicking pools of the test table. -/
theorem price_fails_on_zero_reserve_witness :
    (((CreatePool 0 1000 1000).Rx = 0 ∨ (CreatePool 0 1000 1000).Ry = 0) ∧
      (Pool.Price (CreatePool 0 1000 1000) =
          .error (.panic "pool price is not defined for a depleted pool") ∧
        ∀ d : Dec, Pool.Price (CreatePool 0 1000 1000) ≠ .ok d)) ∧
    (((CreatePool 1000 0 1000).Rx = 0 ∨ (CreatePool 1000 0 1000).Ry = 0) ∧
      (Pool.Price (CreatePool 1000 0 1000) =
          .error (.panic "pool price is not defined for a depleted pool") ∧
        ∀ d : Dec, Pool.Price (CreatePool 1000 0 1000) ≠ .ok d)) :=
  ⟨⟨Or.inl rfl, price_fails_on_zero_reserve (CreatePool 0 1000 1000) (Or.inl rfl)⟩,
   ⟨Or.inr rfl, price_fails_on_zero_reserve (CreatePool 1000 0 1000) (Or.inr rfl)⟩⟩

/-- C12 (amended). On a depleted pool in which `|Rx| * 10^18` is below `2^315`,
`Price()` fails exactly when a reserve is zero: it panics when `Rx = 0` or
`Ry = 0`, and it returns a value when the pool is depleted only because
`Ps = 0`. -/
theorem price_on_depleted (pool : Pool) (hd : pool.IsDepleted = true)
    (hrange : |pool.Rx| * 10 ^ 18 < 2 ^ 315) :
    ((∃ e, pool.Price = .error e) ↔ (pool.Rx = 0 ∨ pool.Ry = 0)) ∧
    ((∃ d, pool.Price = .ok d) ↔ (pool.Ps = 0 ∧ pool.Rx ≠ 0 ∧ pool.Ry ≠ 0)) := by
  simp only [Pool.IsDepleted, Bool.or_eq_true, beq_iff_eq] at hd
  by_cases h : pool.Rx = 0 ∨ pool.Ry = 0
  · have hp : pool.Price = .error (.panic "pool price is not defined for a depleted pool") := by
      unfold Pool.Price
      rw [if_pos h]
    rw [hp]
    refine ⟨⟨fun _ => h, fun _ => ⟨_, rfl⟩⟩, ⟨?_, ?_⟩⟩
    · rintro ⟨d, hd'⟩
      exact Except.noConfusion hd'
    · rintro ⟨_, h1, h2⟩
      rcases h with h | h
      · exact absurd h h1
      · exact absurd h h2
  · push_neg at h
    obtain ⟨d, hp⟩ := Price_returns pool h.1 h.2 hrange
    rw [hp]
    refine ⟨⟨?_, fun h' => ?_⟩, ⟨fun _ => ?_, fun _ => ⟨_, rfl⟩⟩⟩
    · rintro ⟨e, he⟩
      exact Except.noConfusion he
    · rcases h' with h' | h'
      · exact absurd h' h.1
      · exact absurd h' h.2
    · rcases hd with (hd | hd) | hd
      · exact ⟨hd, h.1, h.2⟩
      · exact absurd hd h.1
      · exact absurd hd h.2

/-- The witness of C12: the depleted pool `(100, 0, 0)` of the test table, on
which `Price()` panics, and the depleted pool `(100, 100, 0)`, on which it
returns a value. -/
theorem price_on_depleted_witness :
    (Pool.IsDepleted (CreatePool 100 0 0) = true ∧
      |(CreatePool 100 0 0).Rx| * 10 ^ 18 < 2 ^ 315) ∧
    (((∃ e, Pool.Price (CreatePool 100 0 0) = .error e) ↔
        ((CreatePool 100 0 0).Rx = 0 ∨ (CreatePool 100 0 0).Ry = 0)) ∧
      ((∃ d, Pool.Price (CreatePool 100 0 0) = .ok d) ↔
        ((CreatePool 100 0 0).Ps = 0 ∧ (CreatePool 100 0 0).Rx ≠ 0 ∧
          (CreatePool 100 0 0).Ry ≠ 0))) ∧
    Pool.Price (CreatePool 100 0 0) =
      .error (.panic "pool price is not defined for a depleted pool") ∧
    (∃ d, Pool.Price (CreatePool 100 100 0) = .ok d) :=
  ⟨⟨by decide, by norm_num [CreatePool]⟩,
   price_on_depleted (CreatePool 100 0 0) (by decide) (by norm_num [CreatePool]), by decide,
   ((price_on_depleted (CreatePool 100 100 0) (by decide) (by norm_num [CreatePool])).2).mpr
     ⟨rfl, by decide, by decide⟩⟩

/-- C12, the claim as stated fails: the pool `(100, 100, 0)` is depleted
(`Ps = 0`), and `Price()` returns the decimal `1` on it. -/
theorem price_on_depleted_counterexample :
    Pool.IsDepleted (CreatePool 100 100 0) = true ∧
    Pool.Price (CreatePool 100 100 0) = .ok { i := 1000000000000000000 } ∧
    Dec.toRat { i := 1000000000000000000 } = 1 :=
  ⟨by decide, by decide, by norm_num [Dec.toRat, precisionReuse]⟩

/-- C19 (amended). Price is the quotient rounded to 18 decimal places: for every
pool with `Rx > 0`, `Ry > 0` and `Rx * 10^18` below `2^315`, `Price()` returns a
decimal `p / 10^18` with integer `p` and
`|p / 10^18 - Rx / Ry| < (1/2) * 10^-18 + 10^-36`; when `Ry ≤ 5 * 10^17` the
bound is `|p / 10^18 - Rx / Ry| ≤ (1/2) * 10^-18`. -/
theorem price_nearest (pool : Pool) (hrx : 0 < pool.Rx) (hry : 0 < pool.Ry)
    (hrange : pool.Rx * 10 ^ 18 < 2 ^ 315) :
    ∃ p : Int, pool.Price = .ok { i := p } ∧
      Dec.toRat { i := p } = (p : ℚ) / 10 ^ 18 ∧
      |(p : ℚ) / 10 ^ 18 - (pool.Rx : ℚ) / (pool.Ry : ℚ)| < 1 / (2 * 10 ^ 18) + 1 / 10 ^ 36 ∧
      (pool.Ry ≤ 5 * 10 ^ 17 →
        |(p : ℚ) / 10 ^ 18 - (pool.Rx : ℚ) / (pool.Ry : ℚ)| ≤ 1 / (2 * 10 ^ 18)) := by
  have hPv : precisionReuse = 10 ^ 18 := by decide
  obtain ⟨hb1, hb2⟩ := price_numerator_nearest pool.Rx pool.Ry hrx hry
  refine ⟨_, Price_pos pool hrx hry hrange, ?_, ?_⟩
  · unfold Dec.toRat
    rw [hPv]
    norm_num
  generalize chopNonneg (pool.Rx * precisionReuse * precisionReuse / pool.Ry) = p
    at hb1 hb2
  rw [hPv] at hb1 hb2
  have hryq : (0 : ℚ) < (pool.Ry : ℚ) := by exact_mod_cast hry
  have hden : (0 : ℚ) < 10 ^ 18 * (pool.Ry : ℚ) := mul_pos (by positivity) hryq
  have hkey : (p : ℚ) / 10 ^ 18 - (pool.Rx : ℚ) / (pool.Ry : ℚ) =
      (((p * pool.Ry - pool.Rx * 10 ^ 18 : Int) : ℚ)) / (10 ^ 18 * (pool.Ry : ℚ)) := by
    push_cast
    field_simp
    ring
  rw [hkey, abs_div, abs_of_pos hden, ← Int.cast_abs]
  generalize |p * pool.Ry - pool.Rx * 10 ^ 18| = A at hb1 hb2
  constructor
  · have hq : (2 : ℚ) * (A : ℚ) * 10 ^ 18 < (10 ^ 18 + 2) * (pool.Ry : ℚ) := by
      exact_mod_cast hb1
    rw [div_lt_iff₀ hden]
    have : (1 / (2 * 10 ^ 18) + 1 / 10 ^ 36 : ℚ) * (10 ^ 18 * (pool.Ry : ℚ)) =
        (10 ^ 18 + 2) * (pool.Ry : ℚ) / (2 * 10 ^ 18) := by
      field_simp
      ring
    rw [this, lt_div_iff₀ (by positivity)]
    linarith
  · intro hsmall
    have hq : (2 : ℚ) * (A : ℚ) ≤ (pool.Ry : ℚ) := by
      exact_mod_cast hb2 (by omega)
    rw [div_le_iff₀ hden]
    have : (1 / (2 * 10 ^ 18) : ℚ) * (10 ^ 18 * (pool.Ry : ℚ)) = (pool.Ry : ℚ) / 2 := by
      field_simp
      ring
    rw [this]
    linarith

/-- The witness of C19: the rows of the test table, pool `(200, 300, 10000)` with
price `0.666666666666666667` and pool `(20000, 100, 10000)` with price `200`. -/
theorem price_nearest_witness :
    ((0 : Int) < 200 ∧ (0 : Int) < 300 ∧ (200 : Int) * 10 ^ 18 < 2 ^ 315) ∧
    (∃ p : Int, Pool.Price ⟨200, 300, 10000⟩ = .ok { i := p } ∧
      Dec.toRat { i := p } = (p : ℚ) / 10 ^ 18 ∧
      |(p : ℚ) / 10 ^ 18 - ((200 : Int) : ℚ) / ((300 : Int) : ℚ)|
        < 1 / (2 * 10 ^ 18) + 1 / 10 ^ 36 ∧
      ((300 : Int) ≤ 5 * 10 ^ 17 →
        |(p : ℚ) / 10 ^ 18 - ((200 : Int) : ℚ) / ((300 : Int) : ℚ)| ≤ 1 / (2 * 10 ^ 18))) ∧
    Pool.Price ⟨200, 300, 10000⟩ = .ok { i := 666666666666666667 } ∧
    Pool.Price ⟨20000, 100, 10000⟩ = .ok { i := 200000000000000000000 } ∧
    Dec.toRat { i := 200000000000000000000 } = 200 :=
  ⟨⟨by decide, by decide, by norm_num⟩, price_nearest ⟨200, 300, 10000⟩ (by decide) (by decide) (by norm_num), by decide,
   by decide,
   by norm_num [Dec.toRat, precisionReuse]⟩

/-- C19, the claim as stated fails: on the pool with `Rx = 166666666666666667` and
`Ry = 1000000000000000003` the numerator `Rx * 10^36 / Ry`, cut to an integer, has
the remainder `5 * 10^17` exactly, so `Price()` rounds half to even and returns
`0.166666666666666666`, which is more than `(1/2) * 10^-18` below `Rx / Ry`. -/
theorem price_nearest_counterexample :
    Pool.Price ⟨166666666666666667, 1000000000000000003, 1000000⟩ =
      .ok { i := 166666666666666666 } ∧
    (1 : ℚ) / (2 * 10 ^ 18) <
      ((166666666666666667 : Int) : ℚ) / ((1000000000000000003 : Int) : ℚ) -
        ((166666666666666666 : Int) : ℚ) / 10 ^ 18 ∧
    ¬ (|((166666666666666666 : Int) : ℚ) / 10 ^ 18 -
        ((166666666666666667 : Int) : ℚ) / ((1000000000000000003 : Int) : ℚ)|
      ≤ 1 / (2 * 10 ^ 18)) := by
  have h : (1 : ℚ) / (2 * 10 ^ 18) <
      ((166666666666666667 : Int) : ℚ) / ((1000000000000000003 : Int) : ℚ) -
        ((166666666666666666 : Int) : ℚ) / 10 ^ 18 := by
    norm_num
  refine ⟨by decide, h, ?_⟩
  rw [not_le, abs_sub_comm]
  exact lt_of_lt_of_le h (le_abs_self _)

/-- C18 (amended). For every pool whose reserves are `sdk.Int` values (below
`2^256` in absolute value): when the product `Rx * Ry` is below `2^256` in
absolute value, `K()` returns the integer product `Rx * Ry`; when it is not,
`K()` panics with `Int overflow`.  `K` only reads the pool, so `Rx`, `Ry` and
`Ps` are unchanged. -/
theorem K_eq_product (pool : Pool) (hrx : |pool.Rx| < 2 ^ 256) (hry : |pool.Ry| < 2 ^ 256) :
    (|pool.Rx * pool.Ry| < 2 ^ 256 → pool.K = .ok (pool.Rx * pool.Ry)) ∧
    (2 ^ 256 ≤ |pool.Rx * pool.Ry| → pool.K = .error intOverflow) := by
  refine ⟨fun h => ?_, fun h => sdkIntMul_overflow _ _ h⟩
  unfold Pool.K
  by_cases hz : pool.Rx = 0 ∨ pool.Ry = 0
  · exact sdkIntMul_zero _ _ hz hrx hry
  · push_neg at hz
    exact sdkIntMul_ok _ _ hz.1 hz.2 h

/-- The witness of C18: the pool `(2000000, 3000000, 1000000)` of the swap tests,
whose product is returned, and the pool `(2^200, 2^200, 1)`, on which `K()`
panics. -/
theorem K_eq_product_witness :
    (|(CreatePool 2000000 3000000 1000000).Rx| < 2 ^ 256 ∧
      |(CreatePool 2000000 3000000 1000000).Ry| < 2 ^ 256 ∧
      |(CreatePool 2000000 3000000 1000000).Rx * (CreatePool 2000000 3000000 1000000).Ry|
        < 2 ^ 256) ∧
    Pool.K (CreatePool 2000000 3000000 1000000) = .ok 6000000000000 ∧
    Pool.K (CreatePool (2 ^ 200) (2 ^ 200) 1) = .error intOverflow :=
  ⟨⟨by norm_num [CreatePool], by norm_num [CreatePool], by norm_num [CreatePool]⟩,
   (K_eq_product (CreatePool 2000000 3000000 1000000) (by norm_num [CreatePool])
      (by norm_num [CreatePool])).1 (by norm_num [CreatePool]),
   (K_eq_product (CreatePool (2 ^ 200) (2 ^ 200) 1) (by norm_num [CreatePool])
      (by norm_num [CreatePool])).2 (by norm_num [CreatePool])⟩

/-- C18, the claim as stated fails: on the pool `(2^200, 2^200, 1)` the product
`2^400` needs more than 256 bits, and `K()` panics with `Int overflow` instead of
returning it. -/
theorem K_overflow_counterexample :
    |(2 : Int) ^ 200| < 2 ^ 256 ∧
    Pool.K (CreatePool (2 ^ 200) (2 ^ 200) 1) = .error intOverflow ∧
    Pool.K (CreatePool (2 ^ 200) (2 ^ 200) 1) ≠ .ok (2 ^ 200 * 2 ^ 200) := by
  have h : Pool.K (CreatePool (2 ^ 200) (2 ^ 200) 1) = .error intOverflow :=
    sdkIntMul_overflow _ _ (by norm_num [CreatePool])
  refine ⟨by norm_num, h, ?_⟩
  rw [h]
  exact fun hc => Except.noConfusion hc

/-! ### Invariants of the pool state -/

/-- C13. Non-negativity is preserved: starting from a pool with `Rx ≥ 0`,
`Ry ≥ 0` and `Ps ≥ 0`, every call of `Deposit`, `Withdraw`, `XtoY` or `YtoX`
whose arguments respect the input bounds (amounts `≥ 0`, burned shares `≤ Ps`,
fee rate in `[0, 1)`) leaves a pool with `Rx ≥ 0`, `Ry ≥ 0` and `Ps ≥ 0`. -/
theorem nonneg_preserved (pool : Pool) (x y pc xDelta yDelta : Int) (feeRate : Dec)
    (hwf : pool.WellFormed) (_hx : 0 ≤ x) (_hy : 0 ≤ y) (_hpc0 : 0 ≤ pc)
    (_hpc : pc ≤ pool.Ps) (_hf0 : 0 ≤ feeRate.toRat) (_hf1 : feeRate.toRat < 1)
    (hxd : 0 ≤ xDelta) (_hyd : 0 ≤ yDelta) :
    (pool.Deposit x y).2.WellFormed ∧ (pool.Withdraw pc feeRate).2.WellFormed ∧
    (pool.XtoY xDelta).2.WellFormed ∧ (pool.YtoX yDelta).2.WellFormed := by
  refine ⟨?_, ?_, ?_, ?_⟩
  · rw [Deposit_eq]
    exact hwf
  · rw [Withdraw_eq]
    exact hwf
  · by_cases h : |pool.Rx + xDelta| < 2 ^ 256
    · rw [XtoY_eq pool xDelta h]
      obtain ⟨h1, h2, h3⟩ := hwf
      exact ⟨by show 0 ≤ pool.Rx + xDelta; omega, h2, h3⟩
    · rw [XtoY_eq_overflow pool xDelta (not_lt.mp h)]
      exact hwf
  · rw [YtoX_eq]
    exact hwf

/-- The witness of C13: the pool `(2000, 100, 10000)` of the test tables with the
offer `(200, 10)`, the burned shares `1000` at fee rate `0.003`, and the swap
inputs `500` and `7`; `XtoY(500)` leaves `(2500, 100, 10000)`. -/
theorem nonneg_preserved_witness :
    (Pool.WellFormed (CreatePool 2000 100 10000) ∧ (0 : Int) ≤ 200 ∧ (0 : Int) ≤ 10 ∧
      (0 : Int) ≤ 1000 ∧ (1000 : Int) ≤ (CreatePool 2000 100 10000).Ps ∧
      0 ≤ Dec.toRat { i := 3000000000000000 } ∧ Dec.toRat { i := 3000000000000000 } < 1 ∧
      (0 : Int) ≤ 500 ∧ (0 : Int) ≤ 7) ∧
    ((Pool.Deposit (CreatePool 2000 100 10000) 200 10).2.WellFormed ∧
      (Pool.Withdraw (CreatePool 2000 100 10000) 1000 { i := 3000000000000000 }).2.WellFormed ∧
      (Pool.XtoY (CreatePool 2000 100 10000) 500).2.WellFormed ∧
      (Pool.YtoX (CreatePool 2000 100 10000) 7).2.WellFormed) ∧
    (Pool.XtoY (CreatePool 2000 100 10000) 500).2 = CreatePool 2500 100 10000 :=
  ⟨⟨by decide, by decide, by decide, by decide, by decide,
     by norm_num [Dec.toRat, precisionReuse], by norm_num [Dec.toRat, precisionReuse],
     by decide, by decide⟩,
   nonneg_preserved (CreatePool 2000 100 10000) 200 10 1000 500 7 { i := 3000000000000000 }
     (by decide) (by decide) (by decide) (by decide) (by decide)
     (by norm_num [Dec.toRat, precisionReuse]) (by norm_num [Dec.toRat, precisionReuse])
     (by decide) (by decide),
   by decide⟩

/-! ### The transitions against their test tables

The theorems below evaluate the transitions of `pool.go` at rows of
`pool_test.go` and at the inputs of the specification's edge cases. -/

/-- No call of `Deposit` returns. -/
theorem Deposit_no_result (pool : Pool) (x y : Int)
    (r : Option Int × Option Int × Option Int) : (pool.Deposit x y).1 ≠ .ok r := by
  rw [Deposit_eq]
  exact fun h => Except.noConfusion h

/-- No call of `Withdraw` returns. -/
theorem Withdraw_no_result (pool : Pool) (pc : Int) (feeRate : Dec)
    (r : Option Int × Option Int) : (pool.Withdraw pc feeRate).1 ≠ .ok r := by
  rw [Withdraw_eq]
  exact fun h => Except.noConfusion h

/-- No call of `XtoY` returns. -/
theorem XtoY_no_result (pool : Pool) (xDelta : Int) (r : Option Int) :
    (pool.XtoY xDelta).1 ≠ .ok r := by
  by_cases h : |pool.Rx + xDelta| < 2 ^ 256
  · rw [XtoY_eq pool xDelta h]
    exact fun hc => Except.noConfusion hc
  · rw [XtoY_eq_overflow pool xDelta (not_lt.mp h)]
    exact fun hc => Except.noConfusion hc

/-- No call of `YtoX` returns. -/
theorem YtoX_no_result (pool : Pool) (yDelta : Int) (r : Option Int) :
    (pool.YtoX yDelta).1 ≠ .ok r := by
  rw [YtoX_eq]
  exact fun h => Except.noConfusion h

/-- C1. Deposit non-dilution is not reached by the code: on the non-depleted
pool `(2000, 100, 10000)` of the test table the offer `(200, 10)` ends in the
nil-pointer panic of `pool.Rx.Add(ax)`, and no call of `Deposit` returns a
result `(ax, ay, pc)` of which `ax * Ps ≥ pc * Rx` and `ay * Ps ≥ pc * Ry` could
be read. -/
theorem deposit_non_dilution_no_result :
    Pool.IsDepleted (CreatePool 2000 100 10000) = false ∧
    (Pool.Deposit (CreatePool 2000 100 10000) 200 10).1 = .error nilPointerDereference ∧
    (∀ (pool : Pool) (x y : Int) (r : Option Int × Option Int × Option Int),
      (pool.Deposit x y).1 ≠ .ok r) :=
  ⟨by decide, rfl, Deposit_no_result⟩

/-- C2. Withdraw non-over-extraction is not reached by the code: on the pool
`(2000, 100, 10000)` of the test table, burning `1000` shares at fee rate `0`
ends in the nil-pointer panic of `pool.Rx.Sub(x)`, and no call of `Withdraw`
returns a result `(x, y)` of which `pc * Rx ≥ x * Ps` and `pc * Ry ≥ y * Ps`
could be read. -/
theorem withdraw_non_over_extraction_no_result :
    (0 : Int) ≤ 1000 ∧ (1000 : Int) ≤ (CreatePool 2000 100 10000).Ps ∧
    (Pool.Withdraw (CreatePool 2000 100 10000) 1000 { i := 0 }).1 =
      .error nilPointerDereference ∧
    (∀ (pool : Pool) (pc : Int) (feeRate : Dec) (r : Option Int × Option Int),
      (pool.Withdraw pc feeRate).1 ≠ .ok r) :=
  ⟨by decide, by decide, rfl, Withdraw_no_result⟩

/-- C4. Deposit result, evaluated on the code: on the pool `(2000, 100, 10000)`
with offer `(200, 10)` and on the pool `(200, 300, 333)` with offer `(80, 80)`,
`Deposit` ends in the nil-pointer panic and leaves the pool as it was; it returns
neither `(200, 10, 1000)` nor `(53, 80, 88)`, and the pool does not become
`(2200, 110, 11000)`. -/
theorem deposit_result_panics :
    Pool.Deposit (CreatePool 2000 100 10000) 200 10 =
      (.error nilPointerDereference, CreatePool 2000 100 10000) ∧
    Pool.Deposit (CreatePool 2000 100 10000) 200 10 ≠
      (.ok (some 200, some 10, some 1000), CreatePool 2200 110 11000) ∧
    Pool.Deposit (CreatePool 200 300 333) 80 80 =
      (.error nilPointerDereference, CreatePool 200 300 333) ∧
    Pool.Deposit (CreatePool 200 300 333) 80 80 ≠
      (.ok (some 53, some 80, some 88), CreatePool 253 380 421) :=
  ⟨rfl, by decide, rfl, by decide⟩

/-- C5. Withdraw result, evaluated on the code: on the pool `(2000, 100, 10000)`
with `pc = 1000`, `Withdraw` ends in the nil-pointer panic and leaves the pool as
it was, at fee rate `0` and at fee rate `0.003`; it returns neither `(200, 10)`
nor `(199, 9)`. -/
theorem withdraw_result_panics :
    Pool.Withdraw (CreatePool 2000 100 10000) 1000 { i := 0 } =
      (.error nilPointerDereference, CreatePool 2000 100 10000) ∧
    Pool.Withdraw (CreatePool 2000 100 10000) 1000 { i := 0 } ≠
      (.ok (some 200, some 10), CreatePool 1800 90 9000) ∧
    Pool.Withdraw (CreatePool 2000 100 10000) 1000 { i := 3000000000000000 } =
      (.error nilPointerDereference, CreatePool 2000 100 10000) ∧
    Pool.Withdraw (CreatePool 2000 100 10000) 1000 { i := 3000000000000000 } ≠
      (.ok (some 199, some 9), CreatePool 1801 91 9000) ∧
    Dec.toRat { i := 3000000000000000 } = 3 / 1000 :=
  ⟨rfl, by decide, rfl, by decide, by norm_num [Dec.toRat, precisionReuse]⟩

/-- C6. Withdrawing the whole supply, evaluated on the code: on the pool
`(123, 567, 10)` with `pc = 10` and fee rate `0.003`, `Withdraw` ends in the
nil-pointer panic and the pool stays `(123, 567, 10)`; it does not return
`(123, 567)` and the pool does not become `(0, 0, 0)`. -/
theorem withdraw_all_panics :
    (CreatePool 123 567 10).Ps = 10 ∧
    Pool.Withdraw (CreatePool 123 567 10) 10 { i := 3000000000000000 } =
      (.error nilPointerDereference, CreatePool 123 567 10) ∧
    Pool.Withdraw (CreatePool 123 567 10) 10 { i := 3000000000000000 } ≠
      (.ok (some 123, some 567), CreatePool 0 0 0) ∧
    (Pool.Withdraw (CreatePool 123 567 10) 10 { i := 3000000000000000 }).2 ≠
      CreatePool 0 0 0 :=
  ⟨rfl, rfl, by decide, by decide⟩

/-- C7. X-to-Y swap output, evaluated on the code: on the pool
`(100000, 10000000000)` with `xDelta = 100000`, `XtoY` adds `xDelta` to `Rx` and
then ends in the nil-pointer panic of `pool.Ry.Sub(yDelta)`, leaving the reserves
`(200000, 10000000000)`; it does not return `5000000000`.  On the pool
`(2000000, 3000000)` with `xDelta = 500000` it leaves `(2500000, 3000000)` and
does not return `600000`. -/
theorem xToY_result_panics :
    Pool.IsDepleted (CreatePool 100000 10000000000 1000000) = false ∧
    Pool.XtoY (CreatePool 100000 10000000000 1000000) 100000 =
      (.error nilPointerDereference, CreatePool 200000 10000000000 1000000) ∧
    Pool.XtoY (CreatePool 100000 10000000000 1000000) 100000 ≠
      (.ok (some 5000000000), CreatePool 200000 5000000000 1000000) ∧
    Pool.XtoY (CreatePool 2000000 3000000 1000000) 500000 =
      (.error nilPointerDereference, CreatePool 2500000 3000000 1000000) ∧
    Pool.XtoY (CreatePool 2000000 3000000 1000000) 500000 ≠
      (.ok (some 600000), CreatePool 2500000 2400000 1000000) := by
  have h1 := XtoY_eq (CreatePool 100000 10000000000 1000000) 100000
    (by norm_num [CreatePool])
  have h2 := XtoY_eq (CreatePool 2000000 3000000 1000000) 500000 (by norm_num [CreatePool])
  refine ⟨by decide, h1, ?_, h2, ?_⟩
  · rw [h1]
    decide
  · rw [h2]
    decide

/-- C8. Y-to-X swap output, evaluated on the code: on the pool
`(3000000, 2000000)` with `yDelta = 100` and on the pool `(2000000, 3000000)`
with `yDelta = 1000000`, `YtoX` ends in the nil-pointer panic of
`pool.Rx.Sub(xDelta)` and leaves the pool as it was; it returns neither `149`
nor `500000`, and `Ry` is not increased. -/
theorem yToX_result_panics :
    Pool.IsDepleted (CreatePool 3000000 2000000 1000000) = false ∧
    Pool.YtoX (CreatePool 3000000 2000000 1000000) 100 =
      (.error nilPointerDereference, CreatePool 3000000 2000000 1000000) ∧
    Pool.YtoX (CreatePool 3000000 2000000 1000000) 100 ≠
      (.ok (some 149), CreatePool 2999851 2000100 1000000) ∧
    Pool.YtoX (CreatePool 2000000 3000000 1000000) 1000000 =
      (.error nilPointerDereference, CreatePool 2000000 3000000 1000000) ∧
    Pool.YtoX (CreatePool 2000000 3000000 1000000) 1000000 ≠
      (.ok (some 500000), CreatePool 1500000 4000000 1000000) :=
  ⟨by decide, rfl, by decide, rfl, by decide⟩

/-- C14. Dust deposit, evaluated on the code: on the pool `(10000, 10000, 999)`
with offer `(10, 10)`, on the pool `(10000, 10000, 100)` with offer `(99, 99)`
and on the pool `(2000, 100, 10000)` with offer `(0, 0)`, `Deposit` ends in the
nil-pointer panic instead of returning `(0, 0, 0)`. -/
theorem deposit_dust_panics :
    Pool.IsDepleted (CreatePool 10000 10000 999) = false ∧
    (Pool.Deposit (CreatePool 10000 10000 999) 10 10).1 = .error nilPointerDereference ∧
    (Pool.Deposit (CreatePool 10000 10000 999) 10 10).1 ≠ .ok (some 0, some 0, some 0) ∧
    (Pool.Deposit (CreatePool 10000 10000 100) 99 99).1 = .error nilPointerDereference ∧
    (Pool.Deposit (CreatePool 10000 10000 100) 99 99).1 ≠ .ok (some 0, some 0, some 0) ∧
    (Pool.Deposit (CreatePool 2000 100 10000) 0 0).1 = .error nilPointerDereference ∧
    (Pool.Deposit (CreatePool 2000 100 10000) 0 0).1 ≠ .ok (some 0, some 0, some 0) :=
  ⟨by decide, rfl, by decide, rfl, by decide, rfl, by decide⟩

/-- C15. Zero-input swap, evaluated on the code: on the non-depleted pool
`(2000000, 3000000, 1000000)`, `XtoY(0)` ends in the nil-pointer panic of
`pool.Ry.Sub(yDelta)` instead of returning `0`; the pool is left as it was. -/
theorem xToY_zero_panics :
    Pool.IsDepleted (CreatePool 2000000 3000000 1000000) = false ∧
    (Pool.XtoY (CreatePool 2000000 3000000 1000000) 0).1 = .error nilPointerDereference ∧
    (Pool.XtoY (CreatePool 2000000 3000000 1000000) 0).1 ≠ .ok (some 0) ∧
    (Pool.XtoY (CreatePool 2000000 3000000 1000000) 0).2 =
      CreatePool 2000000 3000000 1000000 := by
  have h := XtoY_eq (CreatePool 2000000 3000000 1000000) 0 (by norm_num [CreatePool])
  refine ⟨by decide, ?_, ?_, ?_⟩
  · rw [h]
  · rw [h]
    decide
  · rw [h]
    decide

/-- C16. Swaps on a depleted pool, evaluated on the code: on the depleted pool
`(100, 100, 0)`, `XtoY(50)` adds `50` to `Rx`, leaving `(150, 100, 0)`, and ends
in the nil-pointer panic; `YtoX(50)` ends in the nil-pointer panic with the pool
as it was.  Neither call fails with an error about the depleted pool, and
`XtoY` does not leave the pool unchanged. -/
theorem swaps_on_depleted_panic :
    Pool.IsDepleted (CreatePool 100 100 0) = true ∧
    Pool.XtoY (CreatePool 100 100 0) 50 =
      (.error nilPointerDereference, CreatePool 150 100 0) ∧
    (Pool.XtoY (CreatePool 100 100 0) 50).2 ≠ CreatePool 100 100 0 ∧
    Pool.YtoX (CreatePool 100 100 0) 50 =
      (.error nilPointerDereference, CreatePool 100 100 0) ∧
    nilPointerDereference ≠ .panic "pool price is not defined for a depleted pool" := by
  have h := XtoY_eq (CreatePool 100 100 0) 50 (by norm_num [CreatePool])
  refine ⟨by decide, h, ?_, rfl, by decide⟩
  rw [h]
  decide

/-- C17. Withdraw of an invalid share amount, evaluated on the code: on the pool
`(2000, 100, 10000)`, `Withdraw(10001)` and `Withdraw(-1)` end in the same
nil-pointer panic of `pool.Rx.Sub(x)` as `Withdraw(1000)` does; the amount `pc`
is not examined. -/
theorem withdraw_invalid_amount_panics :
    (CreatePool 2000 100 10000).Ps < 10001 ∧
    Pool.Withdraw (CreatePool 2000 100 10000) 10001 { i := 0 } =
      (.error nilPointerDereference, CreatePool 2000 100 10000) ∧
    Pool.Withdraw (CreatePool 2000 100 10000) (-1) { i := 0 } =
      (.error nilPointerDereference, CreatePool 2000 100 10000) ∧
    Pool.Withdraw (CreatePool 2000 100 10000) 1000 { i := 0 } =
      (.error nilPointerDereference, CreatePool 2000 100 10000) ∧
    (∀ (pool : Pool) (pc : Int) (feeRate : Dec),
      (pool.Withdraw pc feeRate).1 = (pool.Withdraw pool.Ps feeRate).1) :=
  ⟨by decide, rfl, rfl, rfl, fun _ _ _ => rfl⟩

/-- C20. Deposit within the offer, evaluated on the code: on the non-depleted
pool `(2000, 100, 10000)` with offer `(100, 2000)`, `Deposit` ends in the
nil-pointer panic; it returns no accepted amounts `ax`, `ay` and no minted
amount `pc` that could be compared with the offer. -/
theorem deposit_within_offer_panics :
    Pool.IsDepleted (CreatePool 2000 100 10000) = false ∧
    Pool.Deposit (CreatePool 2000 100 10000) 100 2000 =
      (.error nilPointerDereference, CreatePool 2000 100 10000) ∧
    (∀ ax ay pc : Int, Pool.Deposit (CreatePool 2000 100 10000) 100 2000 ≠
      (.ok (some ax, some ay, some pc),
        CreatePool (2000 + ax) (100 + ay) (10000 + pc))) := by
  refine ⟨by decide, rfl, fun ax ay pc h => ?_⟩
  rw [Deposit_eq] at h
  exact Except.noConfusion (congrArg Prod.fst h)

/-! ## The test tables of the queries -/

/-- The rows of `TestPoolPrice`: the two prices and the two panicking pools. -/
theorem test_table_price :
    Pool.Price (CreatePool 20000 100 10000) = .ok { i := 200 * 1000000000000000000 } ∧
    Pool.Price (CreatePool 200 300 10000) = .ok { i := 666666666666666667 } ∧
    Pool.Price (CreatePool 0 1000 1000) =
      .error (.panic "pool price is not defined for a depleted pool") ∧
    Pool.Price (CreatePool 1000 0 1000) =
      .error (.panic "pool price is not defined for a depleted pool") := by
  decide

/-- The rows of `TestIsDepleted`. -/
theorem test_table_isDepleted :
    Pool.IsDepleted (CreatePool 0 0 0) = true ∧
    Pool.IsDepleted (CreatePool 100 0 0) = true ∧
    Pool.IsDepleted (CreatePool 100 100 0) = true ∧
    Pool.IsDepleted (CreatePool 10000 10000 10000) = false ∧
    Pool.IsDepleted (CreatePool 0 10000 10000) = true := by
  decide

end Amm
